import Mathlib

/-!
Verification of the WASI preview1 runtime shim (src/src/runtime/os_wasip1.go)
and the embedded timezone loader (src/src/time/tz.go).

Byte buffers are modelled as `List Nat` whose elements are byte values; machine
integers are modelled as `Nat` with explicit `% 2 ^ w` where the Go code relies
on fixed-width wraparound.  A Go function that can panic (out-of-bounds index)
is modelled in `Except` or `Option`, where the error value carries the state of
the buffer at the moment of the panic.
-/

/-- Sequential byte stores 'b[off] = x0; b[off+1] = x1; ...' as performed by the
littleEndian Put functions after their early bounds check. -/
def setBytes : List Nat → Nat → List Nat → List Nat
  | b, _, [] => b
  | b, off, x :: xs => setBytes (b.set off x) (off + 1) xs

/-- littleEndian.PutUint16 (os_wasip1.go lines 392-396): early bounds check
'_ = b[1]' (panic leaves the buffer untouched), then b[0] = byte(v),
b[1] = byte(v >> 8).  The offset parameter models the callers' reslicing
'le.PutUint16(b[off:], v)'. -/
def PutUint16 (b : List Nat) (off v : Nat) : Except (List Nat) (List Nat) :=
  if off + 1 < b.length then
    Except.ok (setBytes b off [v % 256, (v >>> 8) % 256])
  else Except.error b

/-- littleEndian.PutUint32 (os_wasip1.go lines 403-409). -/
def PutUint32 (b : List Nat) (off v : Nat) : Except (List Nat) (List Nat) :=
  if off + 3 < b.length then
    Except.ok (setBytes b off
      [v % 256, (v >>> 8) % 256, (v >>> 16) % 256, (v >>> 24) % 256])
  else Except.error b

/-- littleEndian.PutUint64 (os_wasip1.go lines 417-427). -/
def PutUint64 (b : List Nat) (off v : Nat) : Except (List Nat) (List Nat) :=
  if off + 7 < b.length then
    Except.ok (setBytes b off
      [v % 256, (v >>> 8) % 256, (v >>> 16) % 256, (v >>> 24) % 256,
       (v >>> 32) % 256, (v >>> 40) % 256, (v >>> 48) % 256, (v >>> 56) % 256])
  else Except.error b

/-- littleEndian.Uint16 (os_wasip1.go lines 387-390): bounds check '_ = b[1]'
then 'uint16(b[0]) | uint16(b[1])<<8'. -/
def Uint16 (b : List Nat) (off : Nat) : Option Nat :=
  if off + 1 < b.length then
    some (b.getD off 0 ||| (b.getD (off + 1) 0) <<< 8)
  else none

/-- littleEndian.Uint32 (os_wasip1.go lines 398-401). -/
def Uint32 (b : List Nat) (off : Nat) : Option Nat :=
  if off + 3 < b.length then
    some (b.getD off 0 ||| (b.getD (off + 1) 0) <<< 8 |||
      (b.getD (off + 2) 0) <<< 16 ||| (b.getD (off + 3) 0) <<< 24)
  else none

/-- littleEndian.Uint64 (os_wasip1.go lines 411-415). -/
def Uint64 (b : List Nat) (off : Nat) : Option Nat :=
  if off + 7 < b.length then
    some (b.getD off 0 ||| (b.getD (off + 1) 0) <<< 8 |||
      (b.getD (off + 2) 0) <<< 16 ||| (b.getD (off + 3) 0) <<< 24 |||
      (b.getD (off + 4) 0) <<< 32 ||| (b.getD (off + 5) 0) <<< 40 |||
      (b.getD (off + 6) 0) <<< 48 ||| (b.getD (off + 7) 0) <<< 56)
  else none

/-- Clock id constant clockRealtime (os_wasip1.go line 40). -/
def clockRealtime : Nat := 0

/-- Clock id constant clockMonotonic (os_wasip1.go line 41). -/
def clockMonotonic : Nat := 1

/-- Event type constant eventtypeClock (os_wasip1.go line 84). -/
def eventtypeClock : Nat := 0

/-- Body offset of the subscription union content within the 48-byte
subscription record.  Modelled from the spec: the function setBody and the
subscriptionUnion type are not part of the sources under verification (only
their caller setClock is); per the spec the body is a fixed-size region that
follows the 64-bit correlation tag and the event-type tag, which places it at
byte offset 16 of the 48-byte record under the host's non-packed C-style
layout. -/
def subBodyOffset : Nat := 16

/-- Modelled from the spec: setBody is not part of the sources under
verification.  It stores the event-type tag (passed as a 64-bit value by
setClock) after the 64-bit correlation tag, i.e. at byte offset 8, and hands
back the body region starting at subBodyOffset; writes through the returned
body alias the subscription record, which we model by addressing body offset k
as subscription offset subBodyOffset + k. -/
def setBody (sub : List Nat) (typ : Nat) : Except (List Nat) (List Nat) :=
  PutUint64 sub 8 typ

/-- subscription.setClock (os_wasip1.go lines 146-156): writes the clock id at
body offset 0, the timeout at body offset 8 (4 padding bytes after the 32-bit
id keep the 64-bit field 8-byte aligned), the precision at body offset 16 and
the flags at body offset 24. -/
def setClock (sub : List Nat) (cid timeout prec flags : Nat) :
    Except (List Nat) (List Nat) :=
  Except.bind (setBody sub eventtypeClock) (fun s =>
  Except.bind (PutUint32 s (subBodyOffset + 0) cid) (fun s =>
  Except.bind (PutUint64 s (subBodyOffset + 8) timeout) (fun s =>
  Except.bind (PutUint64 s (subBodyOffset + 16) prec) (fun s =>
  PutUint16 s (subBodyOffset + 24) flags))))

/-- Start address of the subscription record inside the 128-byte scratch buffer
of usleep (os_wasip1.go lines 190-194): if the buffer base address is not a
multiple of 8 the slice is advanced by 4 bytes, otherwise it is used from
offset 0. -/
def usleepSubStart (base : Nat) : Nat :=
  if base % 8 ≠ 0 then base + 4 else base

/-- Number of subscriptions usleep passes to poll_oneoff
(os_wasip1.go line 202, third argument). -/
def usleepNSubscriptions : Nat := 1

/-- Encoding part of usleep (os_wasip1.go lines 184-205): a zeroed 48-byte
subscription record (Go zeroes the stack array backing it) is filled by
in.setClock(clockMonotonic, timestamp(usec)*1e3, 1e3, 0).  The argument usec
has Go type uint32, which the theorems record as a hypothesis usec < 2 ^ 32. -/
def usleepEncode (usec : Nat) : Except (List Nat) (List Nat) :=
  setClock (List.replicate 48 0) clockMonotonic (usec * 1000) 1000 0

/-- NewAligned (os_wasip1.go lines 333-383), abstracted over the base addresses
the allocator hands out for the five probe allocations: the candidate
addresses are the plain allocation v0 and the embedded field addresses of the
wrappers padded by 2, 4, 6 and 8 bytes; the first candidate divisible by 8 is
returned, and exhaustion (none) is the throw branch. -/
def NewAligned (b0 b2 b4 b6 b8 : Nat) : Option Nat :=
  if b0 % 8 = 0 then some b0
  else if (b2 + 2) % 8 = 0 then some (b2 + 2)
  else if (b4 + 4) % 8 = 0 then some (b4 + 4)
  else if (b6 + 6) % 8 = 0 then some (b6 + 6)
  else if (b8 + 8) % 8 = 0 then some (b8 + 8)
  else none

/-- readRandom (os_wasip1.go lines 207-212): random_get(&r[0], size(len(r)))
is invoked with the address of the first element, which faults (none) on an
empty slice before the host call happens.  Otherwise the result records the
length passed to random_get and the returned count: 0 when the host errno is
non-zero, len(r) when it is 0. -/
def readRandom (r : List Nat) (hostErrno : Nat) : Option (Nat × Nat) :=
  match r with
  | [] => none
  | _ :: _ => some (r.length, if hostErrno ≠ 0 then 0 else r.length)

/-- Wrapping 32-bit subtraction a - b as performed on Go uint32 values. -/
def sub32 (a b : Nat) : Nat :=
  (a % 2 ^ 32 + (2 ^ 32 - b % 2 ^ 32)) % 2 ^ 32

/-- The NUL scan of goenvs (os_wasip1.go lines 232-235): starting at e, the
loop 'for buf[end] != 0 ( end++ )' reads buf[end] first, so running past the
end of the buffer faults (none).  Fuel makes the recursion structural; callers
pass buf.length + 1, enough for every possible scan. -/
def scanNul (buf : List Nat) : Nat → Nat → Option Nat
  | _, 0 => none
  | e, fuel + 1 =>
    if e < buf.length then
      if buf.getD e 0 = 0 then some e else scanNul buf (e + 1) fuel
    else none

/-- One entry of the goenvs decode loop (os_wasip1.go lines 230-237): scan from
start s to the NUL at end, then materialize the bytes of buf[s:end]. -/
def decodeEntry (buf : List Nat) (s : Nat) : Option (List Nat) :=
  match scanNul buf s (buf.length + 1) with
  | some e => some ((buf.drop s).take (e - s))
  | none => none

/-- The goenvs decode loop over all entries: for each host offset the entry
start is the uint32 difference offset - base (line 231/256), then the entry is
decoded from the flat buffer. -/
def decodeStrings (argv : List Nat) (base : Nat) (buf : List Nat) :
    Option (List (List Nat)) :=
  argv.mapM (fun off => decodeEntry buf (sub32 off base))

/-- Host-provided inputs of one goenvs pass (arguments or environment): the
errno and sizes reported by args_sizes_get / environ_sizes_get, the errno,
offset table and flat buffer delivered by args_get / environ_get, and the base
address of the flat buffer in the host's view. -/
structure ArgsHost where
  sizesErrno : Nat
  argc : Nat
  argvBufLen : Nat
  getErrno : Nat
  argv : List Nat
  argvBuf : List Nat
  base : Nat

/-- One pass of goenvs (os_wasip1.go lines 214-238 for arguments, 240-263 for
the environment; the two passes are structurally identical): a non-zero errno
from either host call throws (none); a zero entry count yields the empty
string sequence without invoking the get binding (the Bool component records
whether the get binding was invoked). -/
def goenvsPass (h : ArgsHost) : Option (List (List Nat) × Bool) :=
  if h.sizesErrno ≠ 0 then none
  else if h.argc = 0 then some ([], false)
  else if h.getErrno ≠ 0 then none
  else
    match decodeStrings h.argv h.base h.argvBuf with
    | some l => some (l, true)
    | none => none

/-- Environment of the timezone loader: the embedded name to byte-blob table
(the files map used by tzData, generated outside the sources under
verification) and the two collaborator loaders LoadLocation and
LoadLocationFromTZData (Go time package, also outside the sources). -/
structure TZEnv (Loc : Type) where
  files : String → Option (List Nat)
  LoadLocation : String → Except String Loc
  LoadLocationFromTZData : String → List Nat → Except String Loc

/-- tzData (tz.go lines 7-10): look up "zoneinfo/" + name in the embedded
table. -/
def tzData {Loc : Type} (env : TZEnv Loc) (name : String) : Option (List Nat) :=
  env.files ("zoneinfo/" ++ name)

/-- loadLocationEmbeddedFile (tz.go lines 13-21). -/
def loadLocationEmbeddedFile {Loc : Type} (env : TZEnv Loc) (name : String) :
    Except String Loc :=
  if name = "" ∨ name = "UTC" ∨ name = "Local" then env.LoadLocation name
  else
    match tzData env name with
    | some tzdata => env.LoadLocationFromTZData name tzdata
    | none => Except.error ("unknown location " ++ name)

theorem getD_set_self (l : List Nat) (i x : Nat) (h : i < l.length) :
    (l.set i x).getD i 0 = x := by
  rw [List.getD_eq_getElem?_getD, List.getElem?_set_self h]
  rfl

theorem getD_set_ne (l : List Nat) (i j x : Nat) (h : i ≠ j) :
    (l.set i x).getD j 0 = l.getD j 0 := by
  rw [List.getD_eq_getElem?_getD, List.getElem?_set_ne h, List.getD_eq_getElem?_getD]

theorem setBytes_length (xs : List Nat) : ∀ (b : List Nat) (off : Nat),
    (setBytes b off xs).length = b.length := by
  induction xs with
  | nil => intro b off; rfl
  | cons x xs ih => intro b off; rw [setBytes, ih, List.length_set]

theorem getD_setBytes_out (xs : List Nat) : ∀ (b : List Nat) (off j : Nat),
    (j < off ∨ off + xs.length ≤ j) → (setBytes b off xs).getD j 0 = b.getD j 0 := by
  induction xs with
  | nil => intro b off j _; rfl
  | cons x xs ih =>
    intro b off j hj
    rw [setBytes, ih (b.set off x) (off + 1) j (by simp at hj ⊢; omega),
        getD_set_ne b off j x (by simp at hj; omega)]

theorem getD_setBytes_at (xs : List Nat) : ∀ (b : List Nat) (off k : Nat),
    k < xs.length → off + xs.length ≤ b.length →
    (setBytes b off xs).getD (off + k) 0 = xs.getD k 0 := by
  induction xs with
  | nil => intro b off k hk _; simp at hk
  | cons x xs ih =>
    intro b off k hk hb
    match k with
    | 0 =>
      rw [setBytes]
      rw [getD_setBytes_out xs (b.set off x) (off + 1) (off + 0) (by omega)]
      simpa using getD_set_self b off x (by simp at hb; omega)
    | k + 1 =>
      rw [setBytes]
      have e : off + (k + 1) = (off + 1) + k := by omega
      rw [e, ih (b.set off x) (off + 1) k (by simp at hk; omega)
            (by simp at hb ⊢; omega)]
      rfl

theorem lor_two_pow_add (a b n : Nat) (ha : a < 2 ^ n) :
    a ||| (b <<< n) = a + b * 2 ^ n := by
  apply Nat.eq_of_testBit_eq
  intro i
  rw [Nat.testBit_lor, Nat.testBit_shiftLeft]
  have h2 : a + b * 2 ^ n = 2 ^ n * b + a := by ring
  rw [h2, Nat.testBit_mul_pow_two_add b ha i]
  by_cases h : i < n
  · have hng : ¬ (i ≥ n) := by omega
    simp [h, hng]
  · have hge : i ≥ n := by omega
    have hfa : a.testBit i = false :=
      Nat.testBit_lt_two_pow (lt_of_lt_of_le ha (Nat.pow_le_pow_right (by norm_num) (by omega)))
    simp [h, hge, hfa]

theorem recompose16 (v : Nat) : v % 256 ||| ((v >>> 8) % 256) <<< 8 = v % 2 ^ 16 := by
  rw [lor_two_pow_add _ _ _ (by omega), Nat.shiftRight_eq_div_pow]
  omega

theorem recompose32 (v : Nat) :
    v % 256 ||| ((v >>> 8) % 256) <<< 8 ||| ((v >>> 16) % 256) <<< 16 |||
      ((v >>> 24) % 256) <<< 24 = v % 2 ^ 32 := by
  rw [lor_two_pow_add (v % 256) ((v >>> 8) % 256) 8 (by omega)]
  rw [lor_two_pow_add (v % 256 + ((v >>> 8) % 256) * 2 ^ 8) ((v >>> 16) % 256) 16 (by omega)]
  rw [lor_two_pow_add _ ((v >>> 24) % 256) 24 (by omega)]
  rw [Nat.shiftRight_eq_div_pow, Nat.shiftRight_eq_div_pow, Nat.shiftRight_eq_div_pow]
  omega

theorem recompose64 (v : Nat) :
    v % 256 ||| ((v >>> 8) % 256) <<< 8 ||| ((v >>> 16) % 256) <<< 16 |||
      ((v >>> 24) % 256) <<< 24 ||| ((v >>> 32) % 256) <<< 32 |||
      ((v >>> 40) % 256) <<< 40 ||| ((v >>> 48) % 256) <<< 48 |||
      ((v >>> 56) % 256) <<< 56 = v % 2 ^ 64 := by
  rw [lor_two_pow_add (v % 256) ((v >>> 8) % 256) 8 (by omega)]
  rw [lor_two_pow_add (v % 256 + ((v >>> 8) % 256) * 2 ^ 8) ((v >>> 16) % 256) 16 (by omega)]
  rw [lor_two_pow_add
      (v % 256 + ((v >>> 8) % 256) * 2 ^ 8 + ((v >>> 16) % 256) * 2 ^ 16)
      ((v >>> 24) % 256) 24 (by omega)]
  rw [lor_two_pow_add
      (v % 256 + ((v >>> 8) % 256) * 2 ^ 8 + ((v >>> 16) % 256) * 2 ^ 16 +
        ((v >>> 24) % 256) * 2 ^ 24)
      ((v >>> 32) % 256) 32 (by omega)]
  rw [lor_two_pow_add
      (v % 256 + ((v >>> 8) % 256) * 2 ^ 8 + ((v >>> 16) % 256) * 2 ^ 16 +
        ((v >>> 24) % 256) * 2 ^ 24 + ((v >>> 32) % 256) * 2 ^ 32)
      ((v >>> 40) % 256) 40 (by omega)]
  rw [lor_two_pow_add
      (v % 256 + ((v >>> 8) % 256) * 2 ^ 8 + ((v >>> 16) % 256) * 2 ^ 16 +
        ((v >>> 24) % 256) * 2 ^ 24 + ((v >>> 32) % 256) * 2 ^ 32 +
        ((v >>> 40) % 256) * 2 ^ 40)
      ((v >>> 48) % 256) 48 (by omega)]
  rw [lor_two_pow_add _ ((v >>> 56) % 256) 56 (by omega)]
  rw [Nat.shiftRight_eq_div_pow, Nat.shiftRight_eq_div_pow, Nat.shiftRight_eq_div_pow,
      Nat.shiftRight_eq_div_pow, Nat.shiftRight_eq_div_pow, Nat.shiftRight_eq_div_pow,
      Nat.shiftRight_eq_div_pow]
  omega

theorem PutUint16_spec (b : List Nat) (off v : Nat) (h : off + 1 < b.length) :
    ∃ b2, PutUint16 b off v = Except.ok b2 ∧ b2.length = b.length ∧
      (∀ j, j < off ∨ off + 2 ≤ j → b2.getD j 0 = b.getD j 0) ∧
      Uint16 b2 off = some (v % 2 ^ 16) := by
  refine ⟨setBytes b off [v % 256, (v >>> 8) % 256], ?_, ?_, ?_, ?_⟩
  · rw [PutUint16, if_pos h]
  · exact setBytes_length _ b off
  · intro j hj
    exact getD_setBytes_out _ b off j (by simpa using hj)
  · rw [Uint16, if_pos (by rw [setBytes_length]; omega)]
    have h0 := getD_setBytes_at [v % 256, (v >>> 8) % 256] b off 0
      (by simp) (by simp only [List.length_cons, List.length_nil]; omega)
    have h1 := getD_setBytes_at [v % 256, (v >>> 8) % 256] b off 1
      (by simp) (by simp only [List.length_cons, List.length_nil]; omega)
    simp only [Nat.add_zero] at h0
    rw [h0, h1]
    exact congrArg some (recompose16 v)

theorem PutUint32_spec (b : List Nat) (off v : Nat) (h : off + 3 < b.length) :
    ∃ b2, PutUint32 b off v = Except.ok b2 ∧ b2.length = b.length ∧
      (∀ j, j < off ∨ off + 4 ≤ j → b2.getD j 0 = b.getD j 0) ∧
      Uint32 b2 off = some (v % 2 ^ 32) := by
  refine ⟨setBytes b off [v % 256, (v >>> 8) % 256, (v >>> 16) % 256, (v >>> 24) % 256],
    ?_, ?_, ?_, ?_⟩
  · rw [PutUint32, if_pos h]
  · exact setBytes_length _ b off
  · intro j hj
    exact getD_setBytes_out _ b off j (by simpa using hj)
  · rw [Uint32, if_pos (by rw [setBytes_length]; omega)]
    have h0 := getD_setBytes_at
      [v % 256, (v >>> 8) % 256, (v >>> 16) % 256, (v >>> 24) % 256] b off 0
      (by simp) (by simp only [List.length_cons, List.length_nil]; omega)
    have h1 := getD_setBytes_at
      [v % 256, (v >>> 8) % 256, (v >>> 16) % 256, (v >>> 24) % 256] b off 1
      (by simp) (by simp only [List.length_cons, List.length_nil]; omega)
    have h2 := getD_setBytes_at
      [v % 256, (v >>> 8) % 256, (v >>> 16) % 256, (v >>> 24) % 256] b off 2
      (by simp) (by simp only [List.length_cons, List.length_nil]; omega)
    have h3 := getD_setBytes_at
      [v % 256, (v >>> 8) % 256, (v >>> 16) % 256, (v >>> 24) % 256] b off 3
      (by simp) (by simp only [List.length_cons, List.length_nil]; omega)
    simp only [Nat.add_zero] at h0
    rw [h0, h1, h2, h3]
    exact congrArg some (recompose32 v)

theorem PutUint64_spec (b : List Nat) (off v : Nat) (h : off + 7 < b.length) :
    ∃ b2, PutUint64 b off v = Except.ok b2 ∧ b2.length = b.length ∧
      (∀ j, j < off ∨ off + 8 ≤ j → b2.getD j 0 = b.getD j 0) ∧
      Uint64 b2 off = some (v % 2 ^ 64) := by
  refine ⟨setBytes b off
    [v % 256, (v >>> 8) % 256, (v >>> 16) % 256, (v >>> 24) % 256,
     (v >>> 32) % 256, (v >>> 40) % 256, (v >>> 48) % 256, (v >>> 56) % 256],
    ?_, ?_, ?_, ?_⟩
  · rw [PutUint64, if_pos h]
  · exact setBytes_length _ b off
  · intro j hj
    exact getD_setBytes_out _ b off j (by simpa using hj)
  · rw [Uint64, if_pos (by rw [setBytes_length]; omega)]
    have h0 := getD_setBytes_at
      [v % 256, (v >>> 8) % 256, (v >>> 16) % 256, (v >>> 24) % 256,
       (v >>> 32) % 256, (v >>> 40) % 256, (v >>> 48) % 256, (v >>> 56) % 256] b off 0
      (by simp) (by simp only [List.length_cons, List.length_nil]; omega)
    have h1 := getD_setBytes_at
      [v % 256, (v >>> 8) % 256, (v >>> 16) % 256, (v >>> 24) % 256,
       (v >>> 32) % 256, (v >>> 40) % 256, (v >>> 48) % 256, (v >>> 56) % 256] b off 1
      (by simp) (by simp only [List.length_cons, List.length_nil]; omega)
    have h2 := getD_setBytes_at
      [v % 256, (v >>> 8) % 256, (v >>> 16) % 256, (v >>> 24) % 256,
       (v >>> 32) % 256, (v >>> 40) % 256, (v >>> 48) % 256, (v >>> 56) % 256] b off 2
      (by simp) (by simp only [List.length_cons, List.length_nil]; omega)
    have h3 := getD_setBytes_at
      [v % 256, (v >>> 8) % 256, (v >>> 16) % 256, (v >>> 24) % 256,
       (v >>> 32) % 256, (v >>> 40) % 256, (v >>> 48) % 256, (v >>> 56) % 256] b off 3
      (by simp) (by simp only [List.length_cons, List.length_nil]; omega)
    have h4 := getD_setBytes_at
      [v % 256, (v >>> 8) % 256, (v >>> 16) % 256, (v >>> 24) % 256,
       (v >>> 32) % 256, (v >>> 40) % 256, (v >>> 48) % 256, (v >>> 56) % 256] b off 4
      (by simp) (by simp only [List.length_cons, List.length_nil]; omega)
    have h5 := getD_setBytes_at
      [v % 256, (v >>> 8) % 256, (v >>> 16) % 256, (v >>> 24) % 256,
       (v >>> 32) % 256, (v >>> 40) % 256, (v >>> 48) % 256, (v >>> 56) % 256] b off 5
      (by simp) (by simp only [List.length_cons, List.length_nil]; omega)
    have h6 := getD_setBytes_at
      [v % 256, (v >>> 8) % 256, (v >>> 16) % 256, (v >>> 24) % 256,
       (v >>> 32) % 256, (v >>> 40) % 256, (v >>> 48) % 256, (v >>> 56) % 256] b off 6
      (by simp) (by simp only [List.length_cons, List.length_nil]; omega)
    have h7 := getD_setBytes_at
      [v % 256, (v >>> 8) % 256, (v >>> 16) % 256, (v >>> 24) % 256,
       (v >>> 32) % 256, (v >>> 40) % 256, (v >>> 48) % 256, (v >>> 56) % 256] b off 7
      (by simp) (by simp only [List.length_cons, List.length_nil]; omega)
    simp only [Nat.add_zero] at h0
    rw [h0, h1, h2, h3, h4, h5, h6, h7]
    exact congrArg some (recompose64 v)

theorem Uint16_congr (b b2 : List Nat) (off : Nat) (hlen : b2.length = b.length)
    (hg : ∀ k, k < 2 → b2.getD (off + k) 0 = b.getD (off + k) 0) :
    Uint16 b2 off = Uint16 b off := by
  have h0 := hg 0 (by omega)
  have h1 := hg 1 (by omega)
  simp only [Nat.add_zero] at h0
  simp only [Uint16, hlen, h0, h1]

theorem Uint32_congr (b b2 : List Nat) (off : Nat) (hlen : b2.length = b.length)
    (hg : ∀ k, k < 4 → b2.getD (off + k) 0 = b.getD (off + k) 0) :
    Uint32 b2 off = Uint32 b off := by
  have h0 := hg 0 (by omega)
  have h1 := hg 1 (by omega)
  have h2 := hg 2 (by omega)
  have h3 := hg 3 (by omega)
  simp only [Nat.add_zero] at h0
  simp only [Uint32, hlen, h0, h1, h2, h3]

theorem Uint64_congr (b b2 : List Nat) (off : Nat) (hlen : b2.length = b.length)
    (hg : ∀ k, k < 8 → b2.getD (off + k) 0 = b.getD (off + k) 0) :
    Uint64 b2 off = Uint64 b off := by
  have h0 := hg 0 (by omega)
  have h1 := hg 1 (by omega)
  have h2 := hg 2 (by omega)
  have h3 := hg 3 (by omega)
  have h4 := hg 4 (by omega)
  have h5 := hg 5 (by omega)
  have h6 := hg 6 (by omega)
  have h7 := hg 7 (by omega)
  simp only [Nat.add_zero] at h0
  simp only [Uint64, hlen, h0, h1, h2, h3, h4, h5, h6, h7]

theorem except_ok_bind (a : List Nat) (f : List Nat → Except (List Nat) (List Nat)) :
    Except.bind (Except.ok a) f = f a := rfl

/-- C4: for every byte buffer, every in-bounds position, and every value of
width 16, 32 or 64 bits, writing with the little-endian PutUint16/32/64
primitive and reading back at the same position with Uint16/32/64 returns
exactly the written value. -/
theorem littleEndian_roundTrip (b : List Nat) (off v : Nat) :
    (off + 1 < b.length → v < 2 ^ 16 →
      ∃ b2, PutUint16 b off v = Except.ok b2 ∧ Uint16 b2 off = some v) ∧
    (off + 3 < b.length → v < 2 ^ 32 →
      ∃ b2, PutUint32 b off v = Except.ok b2 ∧ Uint32 b2 off = some v) ∧
    (off + 7 < b.length → v < 2 ^ 64 →
      ∃ b2, PutUint64 b off v = Except.ok b2 ∧ Uint64 b2 off = some v) := by
  refine ⟨?_, ?_, ?_⟩
  · intro h hv
    obtain ⟨b2, he, _, _, hr⟩ := PutUint16_spec b off v h
    exact ⟨b2, he, by rw [hr, Nat.mod_eq_of_lt hv]⟩
  · intro h hv
    obtain ⟨b2, he, _, _, hr⟩ := PutUint32_spec b off v h
    exact ⟨b2, he, by rw [hr, Nat.mod_eq_of_lt hv]⟩
  · intro h hv
    obtain ⟨b2, he, _, _, hr⟩ := PutUint64_spec b off v h
    exact ⟨b2, he, by rw [hr, Nat.mod_eq_of_lt hv]⟩

/-- Witness for C4 at a concrete buffer, offset and one value per width. -/
theorem littleEndian_roundTrip_witness :
    ((0 : Nat) + 1 < (List.replicate 8 (0 : Nat)).length ∧ (65535 : Nat) < 2 ^ 16 ∧
      ∃ b2, PutUint16 (List.replicate 8 0) 0 65535 = Except.ok b2 ∧
        Uint16 b2 0 = some 65535) ∧
    ((0 : Nat) + 3 < (List.replicate 8 (0 : Nat)).length ∧ (4000000000 : Nat) < 2 ^ 32 ∧
      ∃ b2, PutUint32 (List.replicate 8 0) 0 4000000000 = Except.ok b2 ∧
        Uint32 b2 0 = some 4000000000) ∧
    ((0 : Nat) + 7 < (List.replicate 8 (0 : Nat)).length ∧
      (9223372036854775813 : Nat) < 2 ^ 64 ∧
      ∃ b2, PutUint64 (List.replicate 8 0) 0 9223372036854775813 = Except.ok b2 ∧
        Uint64 b2 0 = some 9223372036854775813) :=
  ⟨⟨by decide, by decide,
    (littleEndian_roundTrip (List.replicate 8 0) 0 65535).1 (by decide) (by decide)⟩,
   ⟨by decide, by decide,
    (littleEndian_roundTrip (List.replicate 8 0) 0 4000000000).2.1 (by decide) (by decide)⟩,
   ⟨by decide, by decide,
    (littleEndian_roundTrip (List.replicate 8 0) 0 9223372036854775813).2.2
      (by decide) (by decide)⟩⟩

/-- C5: on a buffer shorter than the access width every read primitive returns
none and every write primitive fails with its out-of-bounds error; moreover a
failing write always carries back the unchanged buffer (the bounds check of
the source precedes every byte store, so no partial write can occur). -/
theorem littleEndian_bounds (b : List Nat) (off v : Nat) :
    (b.length < 2 → Uint16 b off = none ∧ PutUint16 b off v = Except.error b) ∧
    (b.length < 4 → Uint32 b off = none ∧ PutUint32 b off v = Except.error b) ∧
    (b.length < 8 → Uint64 b off = none ∧ PutUint64 b off v = Except.error b) ∧
    (∀ e, PutUint16 b off v = Except.error e → e = b) ∧
    (∀ e, PutUint32 b off v = Except.error e → e = b) ∧
    (∀ e, PutUint64 b off v = Except.error e → e = b) := by
  refine ⟨?_, ?_, ?_, ?_, ?_, ?_⟩
  · intro h
    exact ⟨by rw [Uint16, if_neg (by omega)], by rw [PutUint16, if_neg (by omega)]⟩
  · intro h
    exact ⟨by rw [Uint32, if_neg (by omega)], by rw [PutUint32, if_neg (by omega)]⟩
  · intro h
    exact ⟨by rw [Uint64, if_neg (by omega)], by rw [PutUint64, if_neg (by omega)]⟩
  · intro e he
    rw [PutUint16] at he
    by_cases hc : off + 1 < b.length
    · rw [if_pos hc] at he
      exact absurd he (by simp)
    · rw [if_neg hc] at he
      injection he with hh
      exact hh.symm
  · intro e he
    rw [PutUint32] at he
    by_cases hc : off + 3 < b.length
    · rw [if_pos hc] at he
      exact absurd he (by simp)
    · rw [if_neg hc] at he
      injection he with hh
      exact hh.symm
  · intro e he
    rw [PutUint64] at he
    by_cases hc : off + 7 < b.length
    · rw [if_pos hc] at he
      exact absurd he (by simp)
    · rw [if_neg hc] at he
      injection he with hh
      exact hh.symm

/-- Witness for C5 on the one-byte buffer. -/
theorem littleEndian_bounds_witness :
    (([0] : List Nat).length < 2 ∧ Uint16 [0] 0 = none ∧
      PutUint16 [0] 0 3 = Except.error [0]) ∧
    (([0] : List Nat).length < 4 ∧ Uint32 [0] 0 = none ∧
      PutUint32 [0] 0 3 = Except.error [0]) ∧
    (([0] : List Nat).length < 8 ∧ Uint64 [0] 0 = none ∧
      PutUint64 [0] 0 3 = Except.error [0]) ∧
    (PutUint16 [0] 0 3 = Except.error [0] ∧ ([0] : List Nat) = [0]) :=
  ⟨⟨by decide, ((littleEndian_bounds [0] 0 3).1 (by decide)).1,
    ((littleEndian_bounds [0] 0 3).1 (by decide)).2⟩,
   ⟨by decide, ((littleEndian_bounds [0] 0 3).2.1 (by decide)).1,
    ((littleEndian_bounds [0] 0 3).2.1 (by decide)).2⟩,
   ⟨by decide, ((littleEndian_bounds [0] 0 3).2.2.1 (by decide)).1,
    ((littleEndian_bounds [0] 0 3).2.2.1 (by decide)).2⟩,
   ⟨((littleEndian_bounds [0] 0 3).1 (by decide)).2,
    (littleEndian_bounds [0] 0 3).2.2.2.1 [0]
      (((littleEndian_bounds [0] 0 3).1 (by decide)).2)⟩⟩

/-- C2 counterexample: the layout rule of usleep does not produce an 8-byte
aligned subscription start for every base address; at base address 2 it yields
6, which is not a multiple of 8. -/
theorem usleep_alignment_rule_cex : ¬ (usleepSubStart 2 % 8 = 0) := by decide

/-- C2 amended: the layout rule of usleep (advance by 4 bytes when the base is
not a multiple of 8) yields an 8-byte aligned subscription start for every
base address that is a multiple of 4, not for arbitrary base addresses. -/
theorem usleep_alignment_rule_amended (base : Nat) (h : base % 4 = 0) :
    usleepSubStart base % 8 = 0 := by
  rw [usleepSubStart]
  by_cases h8 : base % 8 = 0
  · rw [if_neg (not_not_intro h8)]
    exact h8
  · rw [if_pos h8]
    omega

/-- Witness for the amended C2 at base address 12. -/
theorem usleep_alignment_rule_witness : (12 : Nat) % 4 = 0 ∧ usleepSubStart 12 % 8 = 0 :=
  ⟨by decide, usleep_alignment_rule_amended 12 (by decide)⟩

/-- C6 counterexample: with an allocator alignment period of 4 (which divides
8, witnessed by 8 % 4 = 0) and the five probe allocations based at 4, 0, 8, 0
and 12 (all multiples of 4), every one of the five padded candidates is
misaligned and NewAligned reaches the irrecoverable failure branch. -/
theorem NewAligned_cex :
    (4 % 4 = 0 ∧ 0 % 4 = 0 ∧ 8 % 4 = 0 ∧ 0 % 4 = 0 ∧ 12 % 4 = 0 ∧ 8 % 4 = 0) ∧
      NewAligned 4 0 8 0 12 = none := by decide

/-- C6 amended: whenever NewAligned returns an address it is a multiple of 8;
and the failure branch is unreachable under the strengthened assumption that
the five allocation bases share one common even residue modulo 8 (as when the
allocator alignment period is 8, or the probes land at equal even bases) -
not under the original assumption that the period merely divides 8. -/
theorem NewAligned_amended (b0 b2 b4 b6 b8 : Nat) :
    (∀ addr, NewAligned b0 b2 b4 b6 b8 = some addr → addr % 8 = 0) ∧
    (b0 % 2 = 0 → b2 % 8 = b0 % 8 → b4 % 8 = b0 % 8 → b6 % 8 = b0 % 8 →
      ∃ addr, NewAligned b0 b2 b4 b6 b8 = some addr) := by
  constructor
  · intro addr h
    rw [NewAligned] at h
    split_ifs at h with h1 h2 h3 h4 h5 <;>
      (injection h with hh; rw [← hh]; assumption)
  · intro he hb2 hb4 hb6
    rw [NewAligned]
    have hc : b0 % 8 = 0 ∨ b0 % 8 = 2 ∨ b0 % 8 = 4 ∨ b0 % 8 = 6 := by omega
    rcases hc with h | h | h | h
    · rw [if_pos h]
      exact ⟨b0, rfl⟩
    · rw [if_neg (by omega), if_neg (by omega), if_neg (by omega), if_pos (by omega)]
      exact ⟨b6 + 6, rfl⟩
    · rw [if_neg (by omega), if_neg (by omega), if_pos (by omega)]
      exact ⟨b4 + 4, rfl⟩
    · rw [if_neg (by omega), if_pos (by omega)]
      exact ⟨b2 + 2, rfl⟩

/-- Witness for the amended C6 with all five bases at address 2. -/
theorem NewAligned_witness :
    (NewAligned 2 2 2 2 2 = some 8 ∧ (8 : Nat) % 8 = 0) ∧
    ((2 : Nat) % 2 = 0 ∧ ∃ addr, NewAligned 2 2 2 2 2 = some addr) :=
  ⟨⟨by decide, (NewAligned_amended 2 2 2 2 2).1 8 (by decide)⟩,
   ⟨by decide, (NewAligned_amended 2 2 2 2 2).2 (by decide) rfl rfl rfl⟩⟩

/-- C7 counterexample: on the empty buffer readRandom does not report zero
bytes filled on host error; it faults on the out-of-bounds access of the first
element before the host call is made. -/
theorem readRandom_cex : readRandom [] 1 ≠ some (0, 0) := by decide

/-- C7 amended: for every non-empty buffer, readRandom invokes random_get over
the full buffer length (first component) and returns that full length when the
host errno is 0, and 0 without aborting when the host errno is non-zero. -/
theorem readRandom_recoverable (r : List Nat) (errno : Nat) (h : r ≠ []) :
    readRandom r errno = some (r.length, if errno ≠ 0 then 0 else r.length) := by
  cases r with
  | nil => exact absurd rfl h
  | cons x xs => rfl

/-- Witness for the amended C7 on a one-byte buffer with a failing host. -/
theorem readRandom_recoverable_witness :
    ([9] : List Nat) ≠ [] ∧ readRandom [9] 1 = some (1, 0) :=
  ⟨by decide, by exact readRandom_recoverable [9] 1 (by decide)⟩

/-- C10: readRandom takes the address of the first buffer element before any
length check, so on the empty buffer it faults for every host errno instead of
returning a count; its recoverable return-zero-on-host-error contract holds
exactly under the precondition that the buffer is non-empty. -/
theorem readRandom_empty_faults :
    (∀ errno, readRandom [] errno = none) ∧
    (∀ (r : List Nat) (errno : Nat), r ≠ [] →
      readRandom r errno = some (r.length, if errno ≠ 0 then 0 else r.length)) := by
  constructor
  · intro errno
    rfl
  · intro r errno h
    cases r with
    | nil => exact absurd rfl h
    | cons x xs => rfl

/-- Witness for C10: the empty buffer faults, a one-byte buffer follows the
recoverable contract. -/
theorem readRandom_empty_faults_witness :
    readRandom [] 3 = none ∧ (([7] : List Nat) ≠ [] ∧ readRandom [7] 2 = some (1, 0)) :=
  ⟨readRandom_empty_faults.1 3,
   by decide, by exact readRandom_empty_faults.2 [7] 2 (by decide)⟩

/-- C8: when the sizes-get host call succeeds and reports zero entries,
the goenvs pass produces the empty string sequence and does not invoke the
get binding (recorded by the false flag). -/
theorem goenvs_zero_entries (h : ArgsHost) (h1 : h.sizesErrno = 0) (h2 : h.argc = 0) :
    goenvsPass h = some ([], false) := by
  rw [goenvsPass, if_neg (by omega), if_pos h2]

/-- Witness for C8 with junk in the unused get-binding fields. -/
theorem goenvs_zero_entries_witness :
    (ArgsHost.mk 0 0 7 3 [5] [9] 11).sizesErrno = 0 ∧
    (ArgsHost.mk 0 0 7 3 [5] [9] 11).argc = 0 ∧
    goenvsPass (ArgsHost.mk 0 0 7 3 [5] [9] 11) = some ([], false) :=
  ⟨rfl, rfl, goenvs_zero_entries (ArgsHost.mk 0 0 7 3 [5] [9] 11) rfl rfl⟩

/-- C9: loadLocationEmbeddedFile defers the reserved names to the system
LoadLocation, parses the embedded blob for a name present under
"zoneinfo/" + name, and reports a not-found error otherwise. -/
theorem loadLocationEmbeddedFile_spec {Loc : Type} (env : TZEnv Loc) (name : String) :
    ((name = "" ∨ name = "UTC" ∨ name = "Local") →
      loadLocationEmbeddedFile env name = env.LoadLocation name) ∧
    (¬ (name = "" ∨ name = "UTC" ∨ name = "Local") →
      (∀ d, env.files ("zoneinfo/" ++ name) = some d →
        loadLocationEmbeddedFile env name = env.LoadLocationFromTZData name d) ∧
      (env.files ("zoneinfo/" ++ name) = none →
        loadLocationEmbeddedFile env name =
          Except.error ("unknown location " ++ name))) := by
  constructor
  · intro h
    rw [loadLocationEmbeddedFile, if_pos h]
  · intro h
    constructor
    · intro d hd
      rw [loadLocationEmbeddedFile, if_neg h]
      simp only [tzData, hd]
    · intro hd
      rw [loadLocationEmbeddedFile, if_neg h]
      simp only [tzData, hd]

/-- Concrete timezone-loader environment used by the C9 witness: one embedded
entry under "zoneinfo/X". -/
def tzEnvExample : TZEnv Nat where
  files := fun s => if s = "zoneinfo/X" then some [1, 2] else none
  LoadLocation := fun _ => Except.ok 7
  LoadLocationFromTZData := fun _ d => Except.ok d.length

/-- Witness for C9: one reserved name, one embedded name, one unknown name. -/
theorem loadLocationEmbeddedFile_witness :
    ((("UTC" : String) = "" ∨ ("UTC" : String) = "UTC" ∨ ("UTC" : String) = "Local") ∧
      loadLocationEmbeddedFile tzEnvExample "UTC" = tzEnvExample.LoadLocation "UTC") ∧
    (¬ ((("X" : String) = "" ∨ ("X" : String) = "UTC" ∨ ("X" : String) = "Local")) ∧
      tzEnvExample.files ("zoneinfo/" ++ "X") = some [1, 2] ∧
      loadLocationEmbeddedFile tzEnvExample "X" =
        tzEnvExample.LoadLocationFromTZData "X" [1, 2]) ∧
    (¬ ((("Y" : String) = "" ∨ ("Y" : String) = "UTC" ∨ ("Y" : String) = "Local")) ∧
      tzEnvExample.files ("zoneinfo/" ++ "Y") = none ∧
      loadLocationEmbeddedFile tzEnvExample "Y" =
        Except.error ("unknown location " ++ "Y")) :=
  ⟨⟨by decide, (loadLocationEmbeddedFile_spec tzEnvExample "UTC").1 (by decide)⟩,
   ⟨by decide, by decide,
    ((loadLocationEmbeddedFile_spec tzEnvExample "X").2 (by decide)).1 [1, 2] (by decide)⟩,
   ⟨by decide, by decide,
    ((loadLocationEmbeddedFile_spec tzEnvExample "Y").2 (by decide)).2 (by decide)⟩⟩

theorem scanNul_finds (buf : List Nat) (e : Nat) :
    ∀ fuel s, s ≤ e → e < buf.length → buf.getD e 0 = 0 →
      (∀ j, s ≤ j → j < e → buf.getD j 0 ≠ 0) → e - s < fuel →
      scanNul buf s fuel = some e := by
  intro fuel
  induction fuel with
  | zero =>
    intro s _ _ _ _ hf
    omega
  | succ f ih =>
    intro s hse he h0 hmin hf
    rw [scanNul, if_pos (by omega)]
    by_cases hz : buf.getD s 0 = 0
    · have hseq : s = e := by
        by_contra hne
        exact hmin s (le_refl s) (by omega) hz
      rw [if_pos hz, hseq]
    · rw [if_neg hz]
      have hne : s ≠ e := fun hh => hz (hh ▸ h0)
      exact ih (s + 1) (by omega) he h0 (fun j hj1 hj2 => hmin j (by omega) hj2) (by omega)

theorem decodeEntry_spec (buf : List Nat) (s e : Nat) (hse : s ≤ e) (he : e < buf.length)
    (h0 : buf.getD e 0 = 0) (hmin : ∀ j, s ≤ j → j < e → buf.getD j 0 ≠ 0) :
    decodeEntry buf s = some ((buf.drop s).take (e - s)) := by
  rw [decodeEntry, scanNul_finds buf e (buf.length + 1) s hse he h0 hmin (by omega)]

theorem decodeStrings_spec (buf : List Nat) (base : Nat) (_hbase : base < 2 ^ 32) :
    ∀ ps : List (Nat × Nat),
      (∀ p ∈ ps, p.1 < 2 ^ 32 ∧ p.1 ≤ p.2 ∧ p.2 < buf.length ∧ buf.getD p.2 0 = 0 ∧
        ∀ j, j < p.2 → p.1 ≤ j → buf.getD j 0 ≠ 0) →
      decodeStrings (ps.map (fun p => (base + p.1) % 2 ^ 32)) base buf =
        some (ps.map (fun p => (buf.drop p.1).take (p.2 - p.1))) := by
  intro ps
  induction ps with
  | nil =>
    intro _
    rfl
  | cons p ps ih =>
    intro hwf
    obtain ⟨h1, h2, h3, h4, h5⟩ := hwf p (List.mem_cons_self p ps)
    have hsub : sub32 ((base + p.1) % 2 ^ 32) base = p.1 := by
      rw [sub32]
      omega
    have ihx := ih (fun q hq => hwf q (List.mem_cons_of_mem p hq))
    simp only [decodeStrings, List.map_cons, List.mapM_cons] at ihx ⊢
    rw [hsub, decodeEntry_spec buf p.1 p.2 h2 h3 h4 (fun j hj1 hj2 => h5 j hj2 hj1), ihx]
    rfl

/-- C3: for every well-formed argument/environment table of N entries (each
offset stored by the host is the flat buffer base plus the entry start, each
entry NUL-terminated within the buffer), the goenvs pass decodes exactly N
strings in index order, string i being the bytes from offset i minus the base
up to but excluding the first subsequent NUL byte. -/
theorem goenvs_decodes_table (buf : List Nat) (base : Nat) (ps : List (Nat × Nat))
    (hbase : base < 2 ^ 32)
    (hwf : ∀ p ∈ ps, p.1 < 2 ^ 32 ∧ p.1 ≤ p.2 ∧ p.2 < buf.length ∧ buf.getD p.2 0 = 0 ∧
      ∀ j, j < p.2 → p.1 ≤ j → buf.getD j 0 ≠ 0) :
    goenvsPass (ArgsHost.mk 0 ps.length buf.length 0
        (ps.map (fun p => (base + p.1) % 2 ^ 32)) buf base) =
      some (ps.map (fun p => (buf.drop p.1).take (p.2 - p.1)), !ps.isEmpty) := by
  cases ps with
  | nil => rfl
  | cons p ps =>
    have hd := decodeStrings_spec buf base hbase (p :: ps) hwf
    simp only [goenvsPass, hd]
    simp

/-- Witness for C3: the flat buffer encoding ["a", "bc"] with host base address
1000 decodes to exactly those two byte strings in order. -/
theorem goenvs_decodes_table_witness :
    (1000 : Nat) < 2 ^ 32 ∧
    (∀ p ∈ [((0 : Nat), (1 : Nat)), (2, 4)],
      p.1 < 2 ^ 32 ∧ p.1 ≤ p.2 ∧ p.2 < ([97, 0, 98, 99, 0] : List Nat).length ∧
      List.getD [97, 0, 98, 99, 0] p.2 0 = 0 ∧
      ∀ j, j < p.2 → p.1 ≤ j → List.getD [97, 0, 98, 99, 0] j 0 ≠ 0) ∧
    goenvsPass (ArgsHost.mk 0 2 5 0 [1000, 1002] [97, 0, 98, 99, 0] 1000) =
      some ([[97], [98, 99]], true) :=
  ⟨by decide, by decide,
   goenvs_decodes_table [97, 0, 98, 99, 0] 1000 [(0, 1), (2, 4)] (by decide) (by decide)⟩

/-- C1: for every microsecond count below 2^32, the usleep encoding builds one
Clock subscription (one subscription slot is passed to poll_oneoff, and the
event-type tag is Clock) whose body carries the monotonic clock id at body
offset 0, timeout = usec * 1000 nanoseconds as a 64-bit field at body offset
8, precision = 1000 nanoseconds as a 64-bit field at body offset 16 and
flags = 0 at body offset 24; the two 64-bit body offsets are multiples of 8. -/
theorem usleep_clock_subscription (usec : Nat) (h : usec < 2 ^ 32) :
    ∃ s, usleepEncode usec = Except.ok s ∧
      Uint64 s 8 = some eventtypeClock ∧
      Uint32 s (subBodyOffset + 0) = some clockMonotonic ∧
      Uint64 s (subBodyOffset + 8) = some (usec * 1000) ∧
      Uint64 s (subBodyOffset + 16) = some 1000 ∧
      Uint16 s (subBodyOffset + 24) = some 0 ∧
      usleepNSubscriptions = 1 ∧ 8 % 8 = 0 ∧ 16 % 8 = 0 := by
  have l0 : (List.replicate 48 (0 : Nat)).length = 48 := by simp
  obtain ⟨b1, e1, len1, fr1, rd1⟩ :=
    PutUint64_spec (List.replicate 48 0) 8 eventtypeClock (by omega)
  have L1 : b1.length = 48 := by rw [len1, l0]
  obtain ⟨b2, e2, len2, fr2, rd2⟩ := PutUint32_spec b1 16 clockMonotonic (by omega)
  have L2 : b2.length = 48 := by rw [len2, L1]
  obtain ⟨b3, e3, len3, fr3, rd3⟩ := PutUint64_spec b2 24 (usec * 1000) (by omega)
  have L3 : b3.length = 48 := by rw [len3, L2]
  obtain ⟨b4, e4, len4, fr4, rd4⟩ := PutUint64_spec b3 32 1000 (by omega)
  have L4 : b4.length = 48 := by rw [len4, L3]
  obtain ⟨b5, e5, len5, fr5, rd5⟩ := PutUint16_spec b4 40 0 (by omega)
  have L5 : b5.length = 48 := by rw [len5, L4]
  refine ⟨b5, ?_, ?_, ?_, ?_, ?_, ?_, rfl, by decide, by decide⟩
  · show Except.bind (PutUint64 (List.replicate 48 0) 8 eventtypeClock) (fun s =>
      Except.bind (PutUint32 s 16 clockMonotonic) (fun s =>
      Except.bind (PutUint64 s 24 (usec * 1000)) (fun s =>
      Except.bind (PutUint64 s 32 1000) (fun s =>
      PutUint16 s 40 0)))) = Except.ok b5
    rw [e1, except_ok_bind, e2, except_ok_bind, e3, except_ok_bind, e4,
      except_ok_bind, e5]
  · have g : ∀ j, j < 16 → b5.getD j 0 = b1.getD j 0 := by
      intro j hj
      rw [fr5 j (by omega), fr4 j (by omega), fr3 j (by omega), fr2 j (by omega)]
    have hc := Uint64_congr b1 b5 8 (by rw [L5, L1]) (fun k hk => g (8 + k) (by omega))
    rw [hc, rd1]
    decide
  · show Uint32 b5 16 = some clockMonotonic
    have g : ∀ j, j < 24 → b5.getD j 0 = b2.getD j 0 := by
      intro j hj
      rw [fr5 j (by omega), fr4 j (by omega), fr3 j (by omega)]
    have hc := Uint32_congr b2 b5 16 (by rw [L5, L2]) (fun k hk => g (16 + k) (by omega))
    rw [hc, rd2]
    decide
  · show Uint64 b5 24 = some (usec * 1000)
    have g : ∀ j, j < 32 → b5.getD j 0 = b3.getD j 0 := by
      intro j hj
      rw [fr5 j (by omega), fr4 j (by omega)]
    have hc := Uint64_congr b3 b5 24 (by rw [L5, L3]) (fun k hk => g (24 + k) (by omega))
    rw [hc, rd3, Nat.mod_eq_of_lt (by omega)]
  · show Uint64 b5 32 = some 1000
    have g : ∀ j, j < 40 → b5.getD j 0 = b4.getD j 0 := fun j hj => fr5 j (by omega)
    have hc := Uint64_congr b4 b5 32 (by rw [L5, L4]) (fun k hk => g (32 + k) (by omega))
    rw [hc, rd4]
    decide
  · show Uint16 b5 40 = some 0
    rw [rd5]
    decide

/-- Witness for C1: a 2000 microsecond sleep encodes timeout 2000000
nanoseconds, precision 1000, flags 0 and the monotonic clock id. -/
theorem usleep_clock_subscription_witness :
    (2000 : Nat) < 2 ^ 32 ∧
    ∃ s, usleepEncode 2000 = Except.ok s ∧
      Uint64 s 8 = some eventtypeClock ∧
      Uint32 s (subBodyOffset + 0) = some clockMonotonic ∧
      Uint64 s (subBodyOffset + 8) = some 2000000 ∧
      Uint64 s (subBodyOffset + 16) = some 1000 ∧
      Uint16 s (subBodyOffset + 24) = some 0 ∧
      usleepNSubscriptions = 1 ∧ 8 % 8 = 0 ∧ 16 % 8 = 0 :=
  ⟨by decide, usleep_clock_subscription 2000 (by decide)⟩
